import Mathlib

/-!
Shallow embedding of `src/index.ts` (AWS cost notifier).

The script fetches two one-day windows of per-service AWS costs, merges
them into a `CostResult` (per-service amounts, change percentages, six
fixed categories, grand totals), prints a JSON summary and publishes a
GitHub issue.  Amounts are modelled as `ℚ`; the one place the source can
produce a non-finite JavaScript number (the unguarded division
`data.current / costResult.total`) is modelled by `JsNum`.
-/

namespace AwsCostNotifier

/-! ### Provider response shapes

A `Group` models one element of `ResultsByTime[0].Groups`: `keys` is the
optional `Keys` array and `amount` the numeric value of
`Metrics?.UnblendedCost.Amount` (absent when `Metrics` is absent; the
string-to-number conversion is abstracted away). -/

structure Group where
  keys : Option (List String)
  amount : Option ℚ
deriving DecidableEq

/-- Resolution of `group.Keys?.[0] || 'Unknown'` (index.ts lines 68/78): a missing `Keys`
array, a missing first element, or an empty string (falsy in JavaScript)
all fall back to `"Unknown"`. -/
def groupKey (g : Group) : String :=
  match g.keys with
  | none => "Unknown"
  | some ks =>
    match ks.head? with
    | none => "Unknown"
    | some k => if k = "" then "Unknown" else k

/-- Amount extraction `Number(group.Metrics?.UnblendedCost.Amount || 0)` (lines 66/76). -/
def groupVal (g : Group) : ℚ := g.amount.getD 0

/-- One element of `ResultsByTime`. -/
structure TimeResult where
  groups : Option (List Group)
deriving DecidableEq

/-- A Cost Explorer `getCostAndUsage` response. -/
structure CEResponse where
  resultsByTime : Option (List TimeResult)
deriving DecidableEq

/-! ### Window processing (lines 62-80) -/

/-- JavaScript `Map.set`: replace the value in place when the key is
already present, otherwise append at the end (insertion order kept). -/
def mapSet (m : List (String × ℚ)) (k : String) (v : ℚ) : List (String × ℚ) :=
  match m with
  | [] => [(k, v)]
  | (k', v') :: rest => if k' = k then (k, v) :: rest else (k', v') :: mapSet rest k v

/-- The loop body of lines 65-69 / 75-79: accumulate the running total and
write each group's amount into the per-window map. -/
def processGroupsAux (acc : List (String × ℚ) × ℚ) : List Group → List (String × ℚ) × ℚ
  | [] => acc
  | g :: gs => processGroupsAux (mapSet acc.1 (groupKey g) (groupVal g), acc.2 + groupVal g) gs

/-- Per-window map and total built from the `Groups` array. -/
def processGroups (gs : List Group) : List (String × ℚ) × ℚ :=
  processGroupsAux ([], 0) gs

/-- Lines 64/74: `if (resp.ResultsByTime && resp.ResultsByTime[0].Groups)`.
When `ResultsByTime` is present but empty, the JavaScript expression
`ResultsByTime[0].Groups` dereferences `undefined` and throws a
`TypeError`; that is the `.error` branch.  A missing `ResultsByTime`, a
missing `Groups` or an empty `Groups` array yield the empty map. -/
def processResponse (r : CEResponse) : Except String (List (String × ℚ) × ℚ) :=
  match r.resultsByTime with
  | none => .ok ([], 0)
  | some [] => .error "TypeError: Cannot read properties of undefined"
  | some (t :: _) =>
    match t.groups with
    | none => .ok ([], 0)
    | some gs => .ok (processGroups gs)

/-! ### Service merge (lines 82-101) -/

/-- Change-percentage rule, lines 87-89 (also 128-130 and 133-135): `0`
when both are zero, `100` when only the previous is zero, otherwise the
relative change in percent. -/
def changePct (current previous : ℚ) : ℚ :=
  if previous = 0 then (if current = 0 then 0 else 100)
  else (current - previous) / previous * 100

structure CostByService where
  serviceName : String
  amount : ℚ
  unit : String
  previousAmount : ℚ
  changePercentage : ℚ
deriving DecidableEq

/-- JavaScript `Set` insertion: append if not already present. -/
def addKey (acc : List String) (k : String) : List String :=
  if k ∈ acc then acc else acc ++ [k]

/-- Key union `new Set([...currentCosts.keys(), ...previousCosts.keys()])`
(line 83): current-window keys first, then previous-window keys,
first occurrence kept. -/
def unionKeys (cur prev : List (String × ℚ)) : List String :=
  ((cur.map Prod.fst) ++ (prev.map Prod.fst)).foldl addKey []

/-- JavaScript `Map.get`: the value stored at `k`, if any. -/
def mapGet (m : List (String × ℚ)) (k : String) : Option ℚ :=
  match m with
  | [] => none
  | (k₀, v₀) :: rest => if k₀ = k then some v₀ else mapGet rest k

/-- Amount lookup `costs.get(service) || 0` (lines 85-86). -/
def lookupAmt (m : List (String × ℚ)) (k : String) : ℚ :=
  (mapGet m k).getD 0

/-- The loop of lines 84-98 building the unsorted `costs` array. -/
def buildCosts (cur prev : List (String × ℚ)) : List CostByService :=
  (unionKeys cur prev).map fun s =>
    let currentAmount := lookupAmt cur s
    let previousAmount := lookupAmt prev s
    { serviceName := s
      amount := currentAmount
      unit := "USD"
      previousAmount := previousAmount
      changePercentage := changePct currentAmount previousAmount }

/-! ### Sorting (line 101 and line 178)

`Array.prototype.sort` with comparator `(a, b) => key b - key a` is a
stable sort into non-increasing key order (ECMAScript sort is stable).  A
stable sort for a total preorder has a unique result, so any stable
algorithm is a faithful model; we use insertion sort. -/

def insertByDesc (key : α → ℚ) (x : α) : List α → List α
  | [] => [x]
  | y :: ys => if key y ≤ key x then x :: y :: ys else y :: insertByDesc key x ys

def sortByDesc (key : α → ℚ) : List α → List α
  | [] => []
  | x :: xs => insertByDesc key x (sortByDesc key xs)

/-! ### Categories (lines 103-131) -/

inductive Category
  | ec2 | security | management | storage | other | tax
deriving DecidableEq

structure CatAgg where
  current : ℚ
  previous : ℚ
  changePercentage : ℚ
deriving DecidableEq

/-- The six-entry object literal of lines 104-111, in insertion order. -/
structure Categories where
  ec2 : CatAgg
  security : CatAgg
  management : CatAgg
  storage : CatAgg
  other : CatAgg
  tax : CatAgg
deriving DecidableEq

def initCategories : Categories :=
  ⟨⟨0, 0, 0⟩, ⟨0, 0, 0⟩, ⟨0, 0, 0⟩, ⟨0, 0, 0⟩, ⟨0, 0, 0⟩, ⟨0, 0, 0⟩⟩

/-- ASCII lowering, the effect of `toLowerCase()` on AWS service names
(character-by-character over the string's character list). -/
def toLowerStr (s : String) : String := ⟨s.data.map Char.toLower⟩

/-- JavaScript `String.prototype.includes`: `pat` occurs somewhere in
`s`. -/
def strContains (s pat : String) : Bool :=
  (List.range (s.length + 1)).any fun i => pat.toList.isPrefixOf (s.toList.drop i)

/-- The conditional chain of lines 114-120, first match wins. -/
def classify (serviceName : String) : Category :=
  let service := toLowerStr serviceName
  if strContains service "ec2" then .ec2
  else if ["guardduty", "vpc", "kms", "cloudfront"].any (fun s => strContains service s) then .security
  else if ["cloudwatch", "secrets manager"].any (fun s => strContains service s) then .management
  else if ["rds", "s3", "dynamodb", "glacier"].any (fun s => strContains service s) then .storage
  else if strContains service "tax" then .tax
  else .other

def getCat (c : Categories) : Category → CatAgg
  | .ec2 => c.ec2
  | .security => c.security
  | .management => c.management
  | .storage => c.storage
  | .other => c.other
  | .tax => c.tax

/-- Lines 122-123: add one service's amounts into its category. -/
def addToCat (c : Categories) (cat : Category) (amt prevAmt : ℚ) : Categories :=
  match cat with
  | .ec2 => { c with ec2 := { c.ec2 with current := c.ec2.current + amt, previous := c.ec2.previous + prevAmt } }
  | .security => { c with security := { c.security with current := c.security.current + amt, previous := c.security.previous + prevAmt } }
  | .management => { c with management := { c.management with current := c.management.current + amt, previous := c.management.previous + prevAmt } }
  | .storage => { c with storage := { c.storage with current := c.storage.current + amt, previous := c.storage.previous + prevAmt } }
  | .other => { c with other := { c.other with current := c.other.current + amt, previous := c.other.previous + prevAmt } }
  | .tax => { c with tax := { c.tax with current := c.tax.current + amt, previous := c.tax.previous + prevAmt } }

/-- The loop of lines 113-124 over the (sorted) costs array.
`cost.previousAmount || 0` equals `previousAmount` since `0 || 0 = 0`. -/
def accumCategories (costs : List CostByService) : Categories :=
  costs.foldl (fun c cost => addToCat c (classify cost.serviceName) cost.amount cost.previousAmount)
    initCategories

/-- Lines 128-130: fill in a category's change percentage. -/
def finishCat (a : CatAgg) : CatAgg :=
  { a with changePercentage := changePct a.current a.previous }

/-- The loop of lines 127-131 over `Object.values(categories)`. -/
def finishCategories (c : Categories) : Categories :=
  ⟨finishCat c.ec2, finishCat c.security, finishCat c.management,
   finishCat c.storage, finishCat c.other, finishCat c.tax⟩

/-! ### The aggregate result (lines 29-146) -/

structure CostResult where
  costs : List CostByService
  total : ℚ
  previousTotal : ℚ
  totalChangePercentage : ℚ
  startDate : String
  endDate : String
  categories : Categories
deriving DecidableEq

/-- Lines 82-145: the pure tail of `getCostsByService`, a function of the
two per-window maps and totals (dates are passed through as strings). -/
def aggregate (currentCosts : List (String × ℚ)) (total : ℚ)
    (previousCosts : List (String × ℚ)) (previousTotal : ℚ)
    (startDate endDate : String) : CostResult :=
  let costs := sortByDesc (fun c => c.amount) (buildCosts currentCosts previousCosts)
  let categories := finishCategories (accumCategories costs)
  { costs := costs
    total := total
    previousTotal := previousTotal
    totalChangePercentage := changePct total previousTotal
    startDate := startDate
    endDate := endDate
    categories := categories }

/-- Function `getCostsByService` after the two fetches: process the current
response, then the previous response, then aggregate. -/
def getCostsByService (currentResponse previousResponse : CEResponse)
    (startDate endDate : String) : Except String CostResult := do
  let cur ← processResponse currentResponse
  let prev ← processResponse previousResponse
  pure (aggregate cur.1 cur.2 prev.1 prev.2 startDate endDate)

/-- A response whose single `ResultsByTime` entry carries the given
groups (the shape the provider returns for a one-day query). -/
def mkResponse (gs : List Group) : CEResponse :=
  ⟨some [⟨some gs⟩]⟩

/-! ### Report rendering -/

/-- JavaScript `Math.abs`. -/
def jsAbs (q : ℚ) : ℚ := if q < 0 then -q else q

/-- Line 202, the "notable changes" filter of the issue body:
`Math.abs(cost.changePercentage!) > 10 && cost.amount > 0.01`. -/
def notableChanges (costs : List CostByService) : List CostByService :=
  costs.filter fun cost => decide (10 < jsAbs cost.changePercentage) && decide (0.01 < cost.amount)

/-- A JavaScript number: finite, `NaN`, or a signed infinity.  Sums and
products of the fetched amounts stay finite; only the unguarded division
by the grand total can leave `ℚ`. -/
inductive JsNum
  | num (q : ℚ)
  | nan
  | posInf
  | negInf
deriving DecidableEq

/-- JavaScript division `a / b` on finite operands: `0 / 0` is `NaN` and
`a / 0` is a signed infinity for nonzero `a`. -/
def jsDiv (a b : ℚ) : JsNum :=
  if b = 0 then (if a = 0 then .nan else if 0 < a then .posInf else .negInf)
  else .num (a / b)

/-- Multiplication by the literal `100` (`NaN` and infinities absorb). -/
def jsMul100 : JsNum → JsNum
  | .num q => .num (q * 100)
  | .nan => .nan
  | .posInf => .posInf
  | .negInf => .negInf

/-- Expression `(data.current / costResult.total) * 100`, the percentage-of-total
expression of line 180 (issue body) and line 250 (JSON summary).  Neither
site guards against a zero total. -/
def percentOfTotal (current total : ℚ) : JsNum :=
  jsMul100 (jsDiv current total)

/-- Entries of `Object.entries(categories)` in object-literal insertion order
(lines 104-111): ec2, security, management, storage, other, tax. -/
def categoryEntries (c : Categories) : List (String × CatAgg) :=
  [("ec2", c.ec2), ("security", c.security), ("management", c.management),
   ("storage", c.storage), ("other", c.other), ("tax", c.tax)]

/-- The six percentage-of-total values of the JSON summary's `categories`
list (lines 245-251), in `Object.entries` order. -/
def summaryPercentages (r : CostResult) : List JsNum :=
  (categoryEntries r.categories).map fun e => percentOfTotal e.2.current r.total

/-- The six percentage-of-total values of the issue body's category
section (lines 177-185), sorted descending by current amount. -/
def issuePercentages (r : CostResult) : List JsNum :=
  ((sortByDesc (fun e => e.2.current) (categoryEntries r.categories)).map
    fun e => percentOfTotal e.2.current r.total)

/-! ### Process model: `main` and `createGitHubIssue` as event traces

`main` (lines 229-268) runs the aggregator (two fetches followed by the
pure processing), prints the JSON summary, then calls
`createGitHubIssue` (lines 148-227), which reads the three environment
variables and throws before any Octokit call when one is missing; any
error is caught at line 264, logged, and the process exits nonzero. -/

inductive Ev
  | fetchCurrent
  | fetchPrevious
  | printSummary
  | createIssue
  | printError
  | exitNonZero
deriving DecidableEq

/-- The publisher configuration read from the environment. -/
structure Env where
  githubToken : Option String
  githubOwner : Option String
  githubRepo : Option String
deriving DecidableEq

/-- Truthiness check `if (!value)`: an unset variable or the empty string (falsy) counts
as missing. -/
def envMissing : Option String → Bool
  | none => true
  | some s => s == ""

/-- Function `createGitHubIssue`, lines 148-227: check the three variables in
order (token, owner, repo), throwing a descriptive error on the first
missing one; otherwise attempt the single `octokit.issues.create` call,
whose failure propagates. -/
def createGitHubIssueRun (env : Env) (sinkOk : Bool) : List Ev × Except String Unit :=
  if envMissing env.githubToken then
    ([], .error "GITHUB_TOKEN environment variable is not set")
  else if envMissing env.githubOwner then
    ([], .error "GITHUB_OWNER environment variable is not set")
  else if envMissing env.githubRepo then
    ([], .error "GITHUB_REPO environment variable is not set")
  else
    ([.createIssue], if sinkOk then .ok () else .error "issue creation failed")

/-- Function `getCostsByService`, lines 29-146, as a trace: the current-window
fetch (line 37), then the previous-window fetch (line 48), then the pure
processing; a fetch failure propagates before the next step runs. -/
def getCostsRun (curFetch prevFetch : Except String CEResponse)
    (startDate endDate : String) : List Ev × Except String CostResult :=
  match curFetch with
  | .error e => ([.fetchCurrent], .error e)
  | .ok cur =>
    match prevFetch with
    | .error e => ([.fetchCurrent, .fetchPrevious], .error e)
    | .ok prev =>
      ([.fetchCurrent, .fetchPrevious], getCostsByService cur prev startDate endDate)

/-- Function `main`, lines 229-268: aggregate, print the JSON summary
(line 234), publish (line 262); the catch block (lines 264-267) logs the
error and exits nonzero.  Returns the event trace and the logged error
message, if any. -/
def mainRun (curFetch prevFetch : Except String CEResponse)
    (startDate endDate : String) (env : Env) (sinkOk : Bool) : List Ev × Option String :=
  match getCostsRun curFetch prevFetch startDate endDate with
  | (tr, .error e) => (tr ++ [.printError, .exitNonZero], some e)
  | (tr, .ok _) =>
    match createGitHubIssueRun env sinkOk with
    | (tr2, .ok _) => (tr ++ [.printSummary] ++ tr2, none)
    | (tr2, .error e) => (tr ++ [.printSummary] ++ tr2 ++ [.printError, .exitNonZero], some e)

/-- Provider fetches performed during a run. -/
def isFetch : Ev → Bool
  | .fetchCurrent => true
  | .fetchPrevious => true
  | _ => false

def countFetches (tr : List Ev) : ℕ := tr.countP isFetch

/-! ### Derived notions used in statements -/

/-- Sum of the six categories' current amounts. -/
def catSumCurrent (c : Categories) : ℚ :=
  c.ec2.current + c.security.current + c.management.current +
    c.storage.current + c.other.current + c.tax.current

/-- A window whose response carries no cost group: `ResultsByTime`
absent, or its first entry has an absent or empty `Groups` array. -/
def emptyWindow (r : CEResponse) : Prop :=
  r.resultsByTime = none ∨
    ∃ t rest, r.resultsByTime = some (t :: rest) ∧ (t.groups = none ∨ t.groups = some [])

/-! ## Lemmas about the stable descending sort -/

theorem insertByDesc_perm (key : α → ℚ) (x : α) (l : List α) :
    (insertByDesc key x l).Perm (x :: l) := by
  induction l with
  | nil => simp [insertByDesc]
  | cons y ys ih =>
    by_cases h : key y ≤ key x
    · simp [insertByDesc, h]
    · simp only [insertByDesc, if_neg h]
      exact (ih.cons y).trans (List.Perm.swap x y ys)

theorem sortByDesc_perm (key : α → ℚ) (l : List α) : (sortByDesc key l).Perm l := by
  induction l with
  | nil => simp [sortByDesc]
  | cons x xs ih => exact (insertByDesc_perm key x (sortByDesc key xs)).trans (ih.cons x)

theorem mem_insertByDesc {key : α → ℚ} {x z : α} {l : List α} :
    z ∈ insertByDesc key x l ↔ z = x ∨ z ∈ l := by
  rw [(insertByDesc_perm key x l).mem_iff, List.mem_cons]

theorem pairwise_insertByDesc (key : α → ℚ) (x : α) (l : List α)
    (h : l.Pairwise (fun a b => key b ≤ key a)) :
    (insertByDesc key x l).Pairwise (fun a b => key b ≤ key a) := by
  induction l with
  | nil => simp [insertByDesc]
  | cons y ys ih =>
    rcases List.pairwise_cons.mp h with ⟨hy, hys⟩
    by_cases hxy : key y ≤ key x
    · simp only [insertByDesc, if_pos hxy]
      refine List.pairwise_cons.mpr ⟨?_, h⟩
      intro z hz
      rcases List.mem_cons.mp hz with rfl | hz
      · exact hxy
      · exact (hy z hz).trans hxy
    · simp only [insertByDesc, if_neg hxy]
      refine List.pairwise_cons.mpr ⟨?_, ih hys⟩
      intro z hz
      rcases mem_insertByDesc.mp hz with rfl | hz
      · exact le_of_not_le hxy
      · exact hy z hz

theorem sortByDesc_sorted (key : α → ℚ) (l : List α) :
    (sortByDesc key l).Pairwise (fun a b => key b ≤ key a) := by
  induction l with
  | nil => simp [sortByDesc]
  | cons x xs ih => exact pairwise_insertByDesc key x _ ih

theorem filter_insertByDesc (key : α → ℚ) (q : ℚ) (x : α) (l : List α) :
    (insertByDesc key x l).filter (fun z => decide (key z = q))
      = if key x = q then x :: l.filter (fun z => decide (key z = q))
        else l.filter (fun z => decide (key z = q)) := by
  induction l with
  | nil => by_cases h : key x = q <;> simp [insertByDesc, List.filter, h]
  | cons y ys ih =>
    by_cases hxy : key y ≤ key x
    · rw [insertByDesc, if_pos hxy]
      by_cases h : key x = q <;> by_cases hy : key y = q <;> simp [List.filter, h, hy]
    · rw [insertByDesc, if_neg hxy]
      by_cases h : key x = q
      · have hy : ¬(key y = q) := fun hq => hxy (le_of_eq (hq.trans h.symm))
        simp [List.filter, ih, h, hy]
      · by_cases hy : key y = q <;> simp [List.filter, ih, h, hy]

theorem sortByDesc_filter_eq (key : α → ℚ) (q : ℚ) (l : List α) :
    (sortByDesc key l).filter (fun z => decide (key z = q))
      = l.filter (fun z => decide (key z = q)) := by
  induction l with
  | nil => rfl
  | cons x xs ih =>
    rw [sortByDesc, filter_insertByDesc]
    by_cases h : key x = q <;> simp [List.filter, h, ih]

/-! ## Lemmas about the per-window map -/

theorem mapGet_mapSet (m : List (String × ℚ)) (k k' : String) (v : ℚ) :
    mapGet (mapSet m k v) k' = if k = k' then some v else mapGet m k' := by
  induction m with
  | nil => by_cases h : k = k' <;> simp [mapSet, mapGet, h]
  | cons p rest ih =>
    obtain ⟨k₀, v₀⟩ := p
    by_cases hk : k₀ = k
    · subst hk
      by_cases h : k₀ = k' <;> simp [mapSet, mapGet, h]
    · by_cases h : k₀ = k'
      · subst h
        have hk' : ¬(k = k₀) := fun hh => hk hh.symm
        simp [mapSet, mapGet, hk, hk']
      · simp [mapSet, mapGet, hk, h, ih]

theorem fst_mapSet (m : List (String × ℚ)) (k : String) (v : ℚ) :
    (mapSet m k v).map Prod.fst
      = if k ∈ m.map Prod.fst then m.map Prod.fst else m.map Prod.fst ++ [k] := by
  induction m with
  | nil => simp [mapSet]
  | cons p rest ih =>
    obtain ⟨k₀, v₀⟩ := p
    by_cases hk : k₀ = k
    · subst hk; simp [mapSet]
    · have hk' : ¬(k = k₀) := fun hh => hk hh.symm
      by_cases hmem : k ∈ rest.map Prod.fst <;>
        simp [mapSet, hk, ih, hmem, hk']

theorem mapSet_of_not_mem {m : List (String × ℚ)} {k : String} (v : ℚ)
    (h : k ∉ m.map Prod.fst) : mapSet m k v = m ++ [(k, v)] := by
  induction m with
  | nil => simp [mapSet]
  | cons p rest ih =>
    obtain ⟨k₀, v₀⟩ := p
    simp only [List.map_cons, List.mem_cons] at h
    push_neg at h
    have h1 : ¬(k₀ = k) := fun hh => h.1 hh.symm
    simp [mapSet, h1, ih h.2]

theorem nodup_keys_mapSet {m : List (String × ℚ)} (k : String) (v : ℚ)
    (h : (m.map Prod.fst).Nodup) : ((mapSet m k v).map Prod.fst).Nodup := by
  rw [fst_mapSet]
  by_cases hmem : k ∈ m.map Prod.fst
  · simpa [hmem] using h
  · rw [if_neg hmem]
    exact h.append (List.nodup_singleton k)
      (fun a ha hb => by simp at hb; subst hb; exact hmem ha)

/-! ## Lemmas about window processing -/

theorem processGroupsAux_snd (gs : List Group) :
    ∀ m t, (processGroupsAux (m, t) gs).2 = t + (gs.map groupVal).sum := by
  induction gs with
  | nil => intro m t; simp [processGroupsAux]
  | cons g gs ih =>
    intro m t
    simp only [processGroupsAux, ih, List.map_cons, List.sum_cons]
    ring

theorem processGroups_snd (gs : List Group) :
    (processGroups gs).2 = (gs.map groupVal).sum := by
  simpa using processGroupsAux_snd gs [] 0

theorem nodup_keys_processGroupsAux (gs : List Group) :
    ∀ m t, (m.map Prod.fst).Nodup → (((processGroupsAux (m, t) gs).1).map Prod.fst).Nodup := by
  induction gs with
  | nil => intro m t h; exact h
  | cons g gs ih =>
    intro m t h
    exact ih _ _ (nodup_keys_mapSet _ _ h)

theorem nodup_keys_processGroups (gs : List Group) :
    (((processGroups gs).1).map Prod.fst).Nodup :=
  nodup_keys_processGroupsAux gs [] 0 (by simp)

theorem mapGet_processGroupsAux (gs : List Group) (k : String) :
    ∀ m t, mapGet (processGroupsAux (m, t) gs).1 k
      = match gs.reverse.find? (fun g => decide (groupKey g = k)) with
        | some g => some (groupVal g)
        | none => mapGet m k := by
  induction gs with
  | nil => intro m t; simp [processGroupsAux]
  | cons g gs ih =>
    intro m t
    simp only [processGroupsAux, ih, List.reverse_cons, List.find?_append]
    cases hfind : gs.reverse.find? (fun g => decide (groupKey g = k)) with
    | some g' => simp [hfind, Option.orElse]
    | none =>
      by_cases hk : groupKey g = k
      · simp [hfind, Option.orElse, List.find?, hk, mapGet_mapSet]
      · simp [hfind, Option.orElse, List.find?, hk, mapGet_mapSet]

/-- Last write wins: the value stored under `k` is the amount of the last
group whose (resolved) key is `k`. -/
theorem mapGet_processGroups (gs : List Group) (k : String) :
    mapGet (processGroups gs).1 k
      = (gs.reverse.find? (fun g => decide (groupKey g = k))).map groupVal := by
  rw [processGroups, mapGet_processGroupsAux gs k [] 0]
  cases gs.reverse.find? (fun g => decide (groupKey g = k)) <;> simp [mapGet]

/-- When the resolved keys are pairwise distinct (the provider returned a
proper mapping), the built map is just the list of key-amount pairs. -/
theorem processGroupsAux_fst_of_nodup (gs : List Group) :
    ∀ m t, (gs.map groupKey).Nodup
      → (∀ k, k ∈ gs.map groupKey → k ∉ m.map Prod.fst)
      → (processGroupsAux (m, t) gs).1 = m ++ gs.map (fun g => (groupKey g, groupVal g)) := by
  induction gs with
  | nil => intro m t _ _; simp [processGroupsAux]
  | cons g gs ih =>
    intro m t hnd hdisj
    have hg : groupKey g ∉ m.map Prod.fst := hdisj _ (by simp)
    rw [List.map_cons, List.nodup_cons] at hnd
    have hdisj' : ∀ k, k ∈ gs.map groupKey → k ∉ (m ++ [(groupKey g, groupVal g)]).map Prod.fst := by
      intro k hk
      have hkm : k ∉ List.map Prod.fst m := hdisj k (by simp [hk])
      have hkg : ¬(k = groupKey g) := by
        rintro rfl; exact hnd.1 hk
      simp [hkm, hkg]
    simp only [processGroupsAux]
    rw [mapSet_of_not_mem _ hg, ih _ _ hnd.2 hdisj', List.append_assoc]
    simp

theorem processGroups_fst_of_nodup (gs : List Group)
    (hnd : (gs.map groupKey).Nodup) :
    (processGroups gs).1 = gs.map (fun g => (groupKey g, groupVal g)) := by
  simpa using processGroupsAux_fst_of_nodup gs [] 0 hnd (by simp)

/-! ## Lemmas about the key union and amount sums -/

theorem mem_addKey (acc : List String) (k₀ k : String) :
    k ∈ addKey acc k₀ ↔ k ∈ acc ∨ k = k₀ := by
  by_cases h : k₀ ∈ acc
  · simp only [addKey, if_pos h]
    exact ⟨Or.inl, fun hh => hh.elim id (fun e => e ▸ h)⟩
  · simp [addKey, if_neg h]

theorem mem_foldl_addKey (ks : List String) :
    ∀ acc k, k ∈ ks.foldl addKey acc ↔ k ∈ acc ∨ k ∈ ks := by
  induction ks with
  | nil => intro acc k; simp
  | cons k₀ ks ih =>
    intro acc k
    rw [List.foldl_cons, ih, mem_addKey, List.mem_cons]
    tauto

theorem nodup_addKey (acc : List String) (k₀ : String) (h : acc.Nodup) :
    (addKey acc k₀).Nodup := by
  by_cases hm : k₀ ∈ acc
  · simpa [addKey, hm] using h
  · rw [addKey, if_neg hm]
    exact h.append (List.nodup_singleton _)
      (fun a ha hb => by simp at hb; subst hb; exact hm ha)

theorem nodup_foldl_addKey (ks : List String) :
    ∀ acc, acc.Nodup → (ks.foldl addKey acc).Nodup := by
  induction ks with
  | nil => intro acc h; exact h
  | cons k₀ ks ih => intro acc h; exact ih _ (nodup_addKey acc k₀ h)

theorem unionKeys_nodup (cur prev : List (String × ℚ)) : (unionKeys cur prev).Nodup :=
  nodup_foldl_addKey _ [] (by simp)

theorem mem_unionKeys (cur prev : List (String × ℚ)) (k : String) :
    k ∈ unionKeys cur prev ↔ k ∈ cur.map Prod.fst ∨ k ∈ prev.map Prod.fst := by
  rw [unionKeys, mem_foldl_addKey]
  simp

theorem mapGet_eq_none_of_not_mem (m : List (String × ℚ)) (k : String)
    (h : k ∉ m.map Prod.fst) : mapGet m k = none := by
  induction m with
  | nil => rfl
  | cons p rest ih =>
    obtain ⟨k₀, v₀⟩ := p
    simp only [List.map_cons, List.mem_cons] at h
    push_neg at h
    have h1 : ¬(k₀ = k) := fun hh => h.1 hh.symm
    simp [mapGet, h1, ih h.2]

theorem map_lookupAmt_keys (m : List (String × ℚ)) (h : (m.map Prod.fst).Nodup) :
    (m.map Prod.fst).map (lookupAmt m) = m.map Prod.snd := by
  induction m with
  | nil => rfl
  | cons p rest ih =>
    obtain ⟨k₀, v₀⟩ := p
    rw [List.map_cons, List.nodup_cons] at h
    simp only [List.map_cons]
    congr 1
    · simp [lookupAmt, mapGet]
    · rw [← ih h.2]
      apply List.map_congr_left
      intro k hk
      have hne : ¬(k₀ = k) := by rintro rfl; exact h.1 hk
      simp [lookupAmt, mapGet, hne]

theorem sum_lookupAmt_unionKeys (cur prev : List (String × ℚ))
    (hc : (cur.map Prod.fst).Nodup) :
    ((unionKeys cur prev).map (lookupAmt cur)).sum = (cur.map Prod.snd).sum := by
  classical
  have hU : (unionKeys cur prev).Nodup := unionKeys_nodup cur prev
  rw [← List.sum_toFinset _ hU, ← map_lookupAmt_keys cur hc, ← List.sum_toFinset _ hc]
  refine (Finset.sum_subset ?_ ?_).symm
  · intro k hk
    rw [List.mem_toFinset] at hk ⊢
    exact (mem_unionKeys cur prev k).mpr (Or.inl hk)
  · intro k _ hkc
    rw [List.mem_toFinset] at hkc
    simp [lookupAmt, mapGet_eq_none_of_not_mem _ _ hkc]

theorem buildCosts_amounts (cur prev : List (String × ℚ)) :
    (buildCosts cur prev).map (fun c => c.amount) = (unionKeys cur prev).map (lookupAmt cur) := by
  rw [buildCosts, List.map_map]
  rfl

/-! ## Lemmas about category accumulation -/

theorem catSumCurrent_addToCat (c : Categories) (cat : Category) (a p : ℚ) :
    catSumCurrent (addToCat c cat a p) = catSumCurrent c + a := by
  cases cat <;> simp [addToCat, catSumCurrent] <;> ring

theorem catSumCurrent_foldl (costs : List CostByService) :
    ∀ c, catSumCurrent (costs.foldl
        (fun c cost => addToCat c (classify cost.serviceName) cost.amount cost.previousAmount) c)
      = catSumCurrent c + (costs.map (fun x => x.amount)).sum := by
  induction costs with
  | nil => intro c; simp
  | cons cost costs ih =>
    intro c
    rw [List.foldl_cons, ih, catSumCurrent_addToCat, List.map_cons, List.sum_cons]
    ring

theorem catSumCurrent_accumCategories (costs : List CostByService) :
    catSumCurrent (accumCategories costs) = (costs.map (fun x => x.amount)).sum := by
  rw [accumCategories, catSumCurrent_foldl]
  simp [initCategories, catSumCurrent]

theorem catSumCurrent_finishCategories (c : Categories) :
    catSumCurrent (finishCategories c) = catSumCurrent c := by
  simp [finishCategories, finishCat, catSumCurrent]

theorem getCat_addToCat_current (c : Categories) (cat cat' : Category) (a p : ℚ) :
    (getCat (addToCat c cat a p) cat').current
      = (getCat c cat').current + (if cat' = cat then a else 0) := by
  cases cat <;> cases cat' <;> simp [addToCat, getCat]

theorem getCat_foldl_current_nonneg (costs : List CostByService)
    (hnn : ∀ x ∈ costs, 0 ≤ x.amount) :
    ∀ c cat, 0 ≤ (getCat c cat).current
      → 0 ≤ (getCat (costs.foldl
          (fun c cost => addToCat c (classify cost.serviceName) cost.amount cost.previousAmount) c)
          cat).current := by
  induction costs with
  | nil => intro c cat h; exact h
  | cons cost costs ih =>
    intro c cat h
    rw [List.foldl_cons]
    refine ih (fun x hx => hnn x (by simp [hx])) _ cat ?_
    rw [getCat_addToCat_current]
    split_ifs
    · exact add_nonneg h (hnn cost (by simp))
    · simpa using h

theorem accumCategories_current_nonneg (costs : List CostByService)
    (hnn : ∀ x ∈ costs, 0 ≤ x.amount) (cat : Category) :
    0 ≤ (getCat (accumCategories costs) cat).current := by
  rw [accumCategories]
  exact getCat_foldl_current_nonneg costs hnn initCategories cat
    (by cases cat <;> simp [getCat, initCategories])

theorem lookupAmt_nonneg (m : List (String × ℚ)) (k : String)
    (h : ∀ p ∈ m, 0 ≤ p.2) : 0 ≤ lookupAmt m k := by
  induction m with
  | nil => simp [lookupAmt, mapGet]
  | cons p rest ih =>
    obtain ⟨k₀, v₀⟩ := p
    by_cases hk : k₀ = k
    · simpa [lookupAmt, mapGet, hk] using h (k₀, v₀) (by simp)
    · simpa [lookupAmt, mapGet, hk] using ih (fun q hq => h q (by simp [hq]))

theorem buildCosts_amount_nonneg (cur prev : List (String × ℚ))
    (h : ∀ p ∈ cur, 0 ≤ p.2) :
    ∀ c ∈ buildCosts cur prev, 0 ≤ c.amount := by
  intro c hc
  rw [buildCosts, List.mem_map] at hc
  obtain ⟨s, _, rfl⟩ := hc
  exact lookupAmt_nonneg cur s h

theorem jsAbs_eq_abs (q : ℚ) : jsAbs q = |q| := by
  rw [jsAbs]
  split_ifs with h
  · exact (abs_of_neg h).symm
  · exact (abs_of_nonneg (le_of_not_lt h)).symm

/-! ## Claim theorems -/

/-- C3: `changePercentage` is `0` when both current and previous amounts
are `0`, `100` when the previous is `0` and the current positive, and
otherwise `(current - previous) / previous * 100`; the same rule is
applied to every service entry, every category and the grand total, so a
service with amount `0` in both windows yields `0` with no division by
zero. -/
theorem changePct_spec (current previous : ℚ) :
    (current = 0 → previous = 0 → changePct current previous = 0) ∧
    (previous = 0 → 0 < current → changePct current previous = 100) ∧
    (previous ≠ 0 → changePct current previous = (current - previous) / previous * 100) ∧
    (∀ cur prev : List (String × ℚ), ∀ c ∈ buildCosts cur prev,
      c.changePercentage = changePct c.amount c.previousAmount) ∧
    (∀ (c : Categories) (cat : Category),
      (getCat (finishCategories c) cat).changePercentage
        = changePct (getCat c cat).current (getCat c cat).previous) ∧
    (∀ (cm pm : List (String × ℚ)) (t pt : ℚ) (sd ed : String),
      (aggregate cm t pm pt sd ed).totalChangePercentage = changePct t pt) := by
  refine ⟨?_, ?_, ?_, ?_, ?_, ?_⟩
  · intro hc hp; simp [changePct, hc, hp]
  · intro hp hc; simp [changePct, hp, ne_of_gt hc]
  · intro hp; simp [changePct, hp]
  · intro cur prev c hc
    rw [buildCosts, List.mem_map] at hc
    obtain ⟨s, _, rfl⟩ := hc
    rfl
  · intro c cat; cases cat <;> rfl
  · intro cm pm t pt sd ed; rfl

theorem changePct_spec_witness :
    changePct 0 0 = 0 ∧ changePct 5 0 = 100 ∧ changePct 3 2 = (3 - 2) / 2 * 100 :=
  ⟨(changePct_spec 0 0).1 rfl rfl,
   (changePct_spec 5 0).2.1 rfl (by norm_num),
   (changePct_spec 3 2).2.2.1 (by norm_num)⟩

/-- C7: the aggregator's service list is the stable descending sort of
the merged list by current amount: amounts are pairwise non-increasing,
and the subsequence of entries having any fixed amount keeps the original
iteration order (no secondary key). -/
theorem costs_sorted_stable (cm pm : List (String × ℚ)) (t pt : ℚ) (sd ed : String) (q : ℚ) :
    (aggregate cm t pm pt sd ed).costs = sortByDesc (fun c => c.amount) (buildCosts cm pm) ∧
    ((aggregate cm t pm pt sd ed).costs).Pairwise (fun a b => b.amount ≤ a.amount) ∧
    ((aggregate cm t pm pt sd ed).costs).filter (fun c => decide (c.amount = q))
      = (buildCosts cm pm).filter (fun c => decide (c.amount = q)) :=
  ⟨rfl, sortByDesc_sorted _ _, sortByDesc_filter_eq _ q _⟩

/-- C6: a service is in the notable-changes section exactly when its
absolute change percentage exceeds 10 and its current amount exceeds
0.01; a 500%-change service with amount 0.001 is excluded, a 15%-change
service with amount 5.00 is included. -/
theorem notableChanges_spec (costs : List CostByService) (c : CostByService) :
    (c ∈ notableChanges costs
      ↔ c ∈ costs ∧ 10 < |c.changePercentage| ∧ (0.01 : ℚ) < c.amount) ∧
    notableChanges [⟨"HighSwing", 0.001, "USD", 0, 500⟩] = [] ∧
    notableChanges [⟨"Grown", 5, "USD", 4, 15⟩] = [⟨"Grown", 5, "USD", 4, 15⟩] := by
  refine ⟨?_, ?_, ?_⟩
  · rw [notableChanges, List.mem_filter]
    simp [jsAbs_eq_abs, and_assoc]
  · norm_num [notableChanges, List.filter, jsAbs]
  · norm_num [notableChanges, List.filter, jsAbs]

/-- C9: a group with no `Keys` array is recorded under the service name
`"Unknown"`; the per-window map is keyed by resolved name with each key
occurring once, so among same-keyed groups only the last amount survives,
while the window total still sums every group's amount. -/
theorem unknown_last_write_spec (gs : List Group) (k : String) :
    (∀ g : Group, g.keys = none → groupKey g = "Unknown") ∧
    (((processGroups gs).1).map Prod.fst).Nodup ∧
    mapGet (processGroups gs).1 k
      = (gs.reverse.find? (fun g => decide (groupKey g = k))).map groupVal ∧
    (processGroups gs).2 = (gs.map groupVal).sum :=
  ⟨fun g hg => by simp [groupKey, hg],
   nodup_keys_processGroups gs, mapGet_processGroups gs k, processGroups_snd gs⟩

theorem unknown_last_write_witness :
    groupKey ⟨none, some 3⟩ = "Unknown" ∧
    mapGet (processGroups [⟨none, some 3⟩, ⟨none, some 4⟩]).1 "Unknown"
      = (([⟨none, some 3⟩, ⟨none, some 4⟩] : List Group).reverse.find?
          (fun g => decide (groupKey g = "Unknown"))).map groupVal ∧
    (processGroups [⟨none, some 3⟩, ⟨none, some 4⟩]).2
      = (([⟨none, some 3⟩, ⟨none, some 4⟩] : List Group).map groupVal).sum :=
  ⟨(unknown_last_write_spec [] "x").1 _ rfl,
   (unknown_last_write_spec [⟨none, some 3⟩, ⟨none, some 4⟩] "Unknown").2.2.1,
   (unknown_last_write_spec [⟨none, some 3⟩, ⟨none, some 4⟩] "Unknown").2.2.2⟩

/-- C5: a missing or empty result group yields the empty per-window
service-to-amount mapping with zero total and no error, and the
aggregation completes normally when either or both windows are empty. -/
theorem emptyWindow_spec (r other : CEResponse) (m : List (String × ℚ)) (t : ℚ)
    (sd ed : String) (he : emptyWindow r) :
    processResponse r = .ok ([], 0) ∧
    (processResponse other = .ok (m, t) →
      getCostsByService r other sd ed = .ok (aggregate [] 0 m t sd ed) ∧
      getCostsByService other r sd ed = .ok (aggregate m t [] 0 sd ed)) := by
  have h1 : processResponse r = .ok ([], 0) := by
    rcases he with hnone | ⟨tr, rest, hsome, hgr⟩
    · simp [processResponse, hnone]
    · rcases hgr with hg | hg <;>
        simp [processResponse, hsome, hg, processGroups, processGroupsAux]
  refine ⟨h1, fun h2 => ⟨?_, ?_⟩⟩
  · simp only [getCostsByService, h1, h2]; rfl
  · simp only [getCostsByService, h1, h2]; rfl

theorem emptyWindow_spec_witness :
    emptyWindow (⟨none⟩ : CEResponse) ∧
    processResponse (⟨none⟩ : CEResponse) = .ok ([], 0) ∧
    getCostsByService ⟨none⟩ (mkResponse []) "s" "e" = .ok (aggregate [] 0 [] 0 "s" "e") :=
  ⟨Or.inl rfl,
   (emptyWindow_spec ⟨none⟩ (mkResponse []) [] 0 "s" "e" (Or.inl rfl)).1,
   ((emptyWindow_spec ⟨none⟩ (mkResponse []) [] 0 "s" "e" (Or.inl rfl)).2 rfl).1⟩

/-- C4: classification is total and exhaustive — every service name maps
to exactly one of the six fixed categories — and follows the fixed
precedence order on the lowercased name by substring matching, first
match wins; "Amazon EC2", "amazon ec2" and "AMAZON-EC2-INSTANCE" all
classify as `ec2`. -/
theorem classify_spec (s : String) :
    classify "Amazon EC2" = Category.ec2 ∧
    classify "amazon ec2" = Category.ec2 ∧
    classify "AMAZON-EC2-INSTANCE" = Category.ec2 ∧
    (classify s = Category.ec2 ∨ classify s = Category.security
      ∨ classify s = Category.management ∨ classify s = Category.storage
      ∨ classify s = Category.tax ∨ classify s = Category.other) ∧
    (classify s = Category.ec2 ↔ strContains (toLowerStr s) "ec2" = true) ∧
    (classify s = Category.security
      ↔ strContains (toLowerStr s) "ec2" = false
        ∧ (["guardduty", "vpc", "kms", "cloudfront"].any
            fun p => strContains (toLowerStr s) p) = true) ∧
    (classify s = Category.management
      ↔ strContains (toLowerStr s) "ec2" = false
        ∧ (["guardduty", "vpc", "kms", "cloudfront"].any
            fun p => strContains (toLowerStr s) p) = false
        ∧ (["cloudwatch", "secrets manager"].any
            fun p => strContains (toLowerStr s) p) = true) ∧
    (classify s = Category.storage
      ↔ strContains (toLowerStr s) "ec2" = false
        ∧ (["guardduty", "vpc", "kms", "cloudfront"].any
            fun p => strContains (toLowerStr s) p) = false
        ∧ (["cloudwatch", "secrets manager"].any
            fun p => strContains (toLowerStr s) p) = false
        ∧ (["rds", "s3", "dynamodb", "glacier"].any
            fun p => strContains (toLowerStr s) p) = true) ∧
    (classify s = Category.tax
      ↔ strContains (toLowerStr s) "ec2" = false
        ∧ (["guardduty", "vpc", "kms", "cloudfront"].any
            fun p => strContains (toLowerStr s) p) = false
        ∧ (["cloudwatch", "secrets manager"].any
            fun p => strContains (toLowerStr s) p) = false
        ∧ (["rds", "s3", "dynamodb", "glacier"].any
            fun p => strContains (toLowerStr s) p) = false
        ∧ strContains (toLowerStr s) "tax" = true) ∧
    (classify s = Category.other
      ↔ strContains (toLowerStr s) "ec2" = false
        ∧ (["guardduty", "vpc", "kms", "cloudfront"].any
            fun p => strContains (toLowerStr s) p) = false
        ∧ (["cloudwatch", "secrets manager"].any
            fun p => strContains (toLowerStr s) p) = false
        ∧ (["rds", "s3", "dynamodb", "glacier"].any
            fun p => strContains (toLowerStr s) p) = false
        ∧ strContains (toLowerStr s) "tax" = false) := by
  refine ⟨by decide, by decide, by decide, ?_⟩
  cases h1 : strContains (toLowerStr s) "ec2" <;>
    cases h2 : (["guardduty", "vpc", "kms", "cloudfront"].any
      fun p => strContains (toLowerStr s) p) <;>
    cases h3 : (["cloudwatch", "secrets manager"].any
      fun p => strContains (toLowerStr s) p) <;>
    cases h4 : (["rds", "s3", "dynamodb", "glacier"].any
      fun p => strContains (toLowerStr s) p) <;>
    cases h5 : strContains (toLowerStr s) "tax" <;>
    simp [classify, h1, h2, h3, h4, h5]

/-- The grand total accumulated over the current window's groups equals
the sum of the current amounts in the (sorted) merged service list,
whenever the current window's resolved keys are distinct. -/
theorem sorted_amounts_sum (curGroups prevGroups : List Group)
    (hcur : (curGroups.map groupKey).Nodup) :
    ((sortByDesc (fun c => c.amount)
        (buildCosts (processGroups curGroups).1 (processGroups prevGroups).1)).map
      (fun c => c.amount)).sum = (processGroups curGroups).2 := by
  have hkeys : (((processGroups curGroups).1).map Prod.fst).Nodup :=
    nodup_keys_processGroups curGroups
  have h1 : ((sortByDesc (fun c => c.amount)
        (buildCosts (processGroups curGroups).1 (processGroups prevGroups).1)).map
      (fun c => c.amount)).sum
      = ((buildCosts (processGroups curGroups).1 (processGroups prevGroups).1).map
          (fun c => c.amount)).sum :=
    List.Perm.sum_eq (List.Perm.map _ (sortByDesc_perm _ _))
  rw [h1, buildCosts_amounts, sum_lookupAmt_unionKeys _ _ hkeys,
    processGroups_fst_of_nodup curGroups hcur, processGroups_snd, List.map_map]
  rfl

/-- C2: for distinct-keyed group lists (per-service mappings) with
non-negative amounts, the grand total equals the sum of the resulting
service list's current amounts and also equals the sum of the six
categories' current sums (every service is accumulated into exactly one
category). -/
theorem total_invariant_spec (curGroups prevGroups : List Group) (sd ed : String)
    (hcur : (curGroups.map groupKey).Nodup)
    (_hprev : (prevGroups.map groupKey).Nodup)
    (_hnnc : ∀ g ∈ curGroups, 0 ≤ groupVal g)
    (_hnnp : ∀ g ∈ prevGroups, 0 ≤ groupVal g) :
    let r := aggregate (processGroups curGroups).1 (processGroups curGroups).2
      (processGroups prevGroups).1 (processGroups prevGroups).2 sd ed
    getCostsByService (mkResponse curGroups) (mkResponse prevGroups) sd ed = .ok r ∧
    r.total = (r.costs.map (fun c => c.amount)).sum ∧
    r.total = catSumCurrent r.categories := by
  intro r
  have hsum2 : r.total = (r.costs.map (fun c => c.amount)).sum :=
    (sorted_amounts_sum curGroups prevGroups hcur).symm
  refine ⟨rfl, hsum2, ?_⟩
  show r.total = catSumCurrent (finishCategories (accumCategories r.costs))
  rw [catSumCurrent_finishCategories, catSumCurrent_accumCategories, hsum2]

theorem total_invariant_witness :
    ((([⟨some ["SvcA"], some 3⟩, ⟨some ["SvcB"], some 2⟩] : List Group).map groupKey).Nodup ∧
      (([⟨some ["SvcA"], some 1⟩] : List Group).map groupKey).Nodup ∧
      (∀ g ∈ ([⟨some ["SvcA"], some 3⟩, ⟨some ["SvcB"], some 2⟩] : List Group), 0 ≤ groupVal g) ∧
      (∀ g ∈ ([⟨some ["SvcA"], some 1⟩] : List Group), 0 ≤ groupVal g)) ∧
    (let r := aggregate (processGroups [⟨some ["SvcA"], some 3⟩, ⟨some ["SvcB"], some 2⟩]).1
        (processGroups [⟨some ["SvcA"], some 3⟩, ⟨some ["SvcB"], some 2⟩]).2
        (processGroups [⟨some ["SvcA"], some 1⟩]).1
        (processGroups [⟨some ["SvcA"], some 1⟩]).2 "2024-01-01" "2024-01-02"
     getCostsByService (mkResponse [⟨some ["SvcA"], some 3⟩, ⟨some ["SvcB"], some 2⟩])
        (mkResponse [⟨some ["SvcA"], some 1⟩]) "2024-01-01" "2024-01-02" = .ok r ∧
      r.total = (r.costs.map (fun c => c.amount)).sum ∧
      r.total = catSumCurrent r.categories) :=
  ⟨⟨by decide, by decide, by decide, by decide⟩,
   total_invariant_spec [⟨some ["SvcA"], some 3⟩, ⟨some ["SvcB"], some 2⟩]
     [⟨some ["SvcA"], some 1⟩] "2024-01-01" "2024-01-02"
     (by decide) (by decide) (by decide) (by decide)⟩

theorem createGitHubIssueRun_no_summary (env : Env) (sinkOk : Bool) :
    Ev.printSummary ∉ (createGitHubIssueRun env sinkOk).1 := by
  rw [createGitHubIssueRun]
  split_ifs <;> simp

/-- C8: whenever the aggregation succeeds, the run's trace is the two
fetches, then the JSON-summary print, then the publish attempt — which
never prints the summary again — so a sink (or configuration) failure
aborts the run only after the summary has been written to standard
output. -/
theorem summary_before_publish (cur prev : CEResponse) (r : CostResult)
    (sd ed : String) (env : Env) (sinkOk : Bool)
    (h : getCostsByService cur prev sd ed = .ok r) :
    ∃ tail, (mainRun (.ok cur) (.ok prev) sd ed env sinkOk).1
        = [Ev.fetchCurrent, Ev.fetchPrevious, Ev.printSummary] ++ tail
      ∧ Ev.printSummary ∉ tail := by
  have hg : getCostsRun (.ok cur) (.ok prev) sd ed
      = ([.fetchCurrent, .fetchPrevious], .ok r) := by
    simp [getCostsRun, h]
  rcases hc : createGitHubIssueRun env sinkOk with ⟨tr2, res⟩
  have hns : Ev.printSummary ∉ tr2 := by
    have hh := createGitHubIssueRun_no_summary env sinkOk
    rw [hc] at hh
    exact hh
  cases res with
  | ok u => exact ⟨tr2, by simp [mainRun, hg, hc], hns⟩
  | error e =>
    refine ⟨tr2 ++ [.printError, .exitNonZero], by simp [mainRun, hg, hc], ?_⟩
    simp [hns]

theorem summary_before_publish_witness :
    getCostsByService ⟨none⟩ ⟨none⟩ "s" "e" = .ok (aggregate [] 0 [] 0 "s" "e") ∧
    ∃ tail, (mainRun (.ok ⟨none⟩) (.ok ⟨none⟩) "s" "e"
        ⟨some "tok", some "acme", some "infra"⟩ false).1
      = [Ev.fetchCurrent, Ev.fetchPrevious, Ev.printSummary] ++ tail
      ∧ Ev.printSummary ∉ tail :=
  ⟨rfl, summary_before_publish ⟨none⟩ ⟨none⟩ (aggregate [] 0 [] 0 "s" "e") "s" "e"
    ⟨some "tok", some "acme", some "infra"⟩ false rfl⟩

/-- C1 counterexample: in a run with the sink token unset (owner and
repository set, both fetches succeeding), the number of provider fetches
performed is 2, not 0 — `createGitHubIssue` reads the configuration only
after `getCostsByService` has already fetched both windows. -/
theorem config_fetch_counterexample :
    countFetches (mainRun (.ok ⟨none⟩) (.ok ⟨none⟩) "2024-01-01" "2024-01-02"
        ⟨none, some "acme", some "infra"⟩ true).1 = 2 ∧
    ¬ countFetches (mainRun (.ok ⟨none⟩) (.ok ⟨none⟩) "2024-01-01" "2024-01-02"
        ⟨none, some "acme", some "infra"⟩ true).1 = 0 :=
  ⟨by decide, by decide⟩

/-- C1 amended: with the sink token unset and both provider fetches
succeeding, the process still fails with the descriptive error naming
`GITHUB_TOKEN` — but only after both provider fetches and the summary
print: the fetch count is 2, not 0. -/
theorem config_fetch_amended (cur prev : CEResponse) (rc rp : List (String × ℚ) × ℚ)
    (sd ed : String) (owner repo : Option String) (sinkOk : Bool)
    (h1 : processResponse cur = .ok rc) (h2 : processResponse prev = .ok rp) :
    (mainRun (.ok cur) (.ok prev) sd ed ⟨none, owner, repo⟩ sinkOk).1
        = [Ev.fetchCurrent, Ev.fetchPrevious, Ev.printSummary, Ev.printError, Ev.exitNonZero] ∧
    countFetches (mainRun (.ok cur) (.ok prev) sd ed ⟨none, owner, repo⟩ sinkOk).1 = 2 ∧
    (mainRun (.ok cur) (.ok prev) sd ed ⟨none, owner, repo⟩ sinkOk).2
        = some "GITHUB_TOKEN environment variable is not set" := by
  have hok : getCostsByService cur prev sd ed = .ok (aggregate rc.1 rc.2 rp.1 rp.2 sd ed) := by
    simp only [getCostsByService, h1, h2]; rfl
  have hg : getCostsRun (.ok cur) (.ok prev) sd ed
      = ([.fetchCurrent, .fetchPrevious], .ok (aggregate rc.1 rc.2 rp.1 rp.2 sd ed)) := by
    simp [getCostsRun, hok]
  have hc : createGitHubIssueRun ⟨none, owner, repo⟩ sinkOk
      = ([], .error "GITHUB_TOKEN environment variable is not set") := by
    simp [createGitHubIssueRun, envMissing]
  have hmain : mainRun (.ok cur) (.ok prev) sd ed ⟨none, owner, repo⟩ sinkOk
      = ([Ev.fetchCurrent, Ev.fetchPrevious, Ev.printSummary, Ev.printError, Ev.exitNonZero],
         some "GITHUB_TOKEN environment variable is not set") := by
    simp [mainRun, hg, hc]
  rw [hmain]
  exact ⟨rfl, by decide, rfl⟩

theorem config_fetch_amended_witness :
    processResponse (⟨none⟩ : CEResponse) = .ok ([], 0) ∧
    ((mainRun (.ok ⟨none⟩) (.ok ⟨none⟩) "s" "e" ⟨none, some "acme", some "infra"⟩ true).1
        = [Ev.fetchCurrent, Ev.fetchPrevious, Ev.printSummary, Ev.printError, Ev.exitNonZero] ∧
      countFetches (mainRun (.ok ⟨none⟩) (.ok ⟨none⟩) "s" "e"
          ⟨none, some "acme", some "infra"⟩ true).1 = 2 ∧
      (mainRun (.ok ⟨none⟩) (.ok ⟨none⟩) "s" "e" ⟨none, some "acme", some "infra"⟩ true).2
        = some "GITHUB_TOKEN environment variable is not set") :=
  ⟨rfl, config_fetch_amended ⟨none⟩ ⟨none⟩ ([], 0) ([], 0) "s" "e"
    (some "acme") (some "infra") true rfl rfl⟩

/-- C10 counterexample: a run whose grand total is `0` need not render
`NaN` percentage-of-total fields: with current-window amounts `5` (an
`ec2`-classified service) and `-5` (an `other` service), the total is
`0` but the `ec2` percentage field is the JavaScript `Infinity`
(`5 / 0`), not `NaN`. -/
theorem percent_nan_counterexample :
    (aggregate (processGroups [⟨some ["Amazon EC2"], some 5⟩, ⟨some ["AWS Lambda"], some (-5)⟩]).1
        (processGroups [⟨some ["Amazon EC2"], some 5⟩, ⟨some ["AWS Lambda"], some (-5)⟩]).2
        (processGroups []).1 (processGroups []).2 "2024-01-01" "2024-01-02").total = 0 ∧
    JsNum.posInf ∈ summaryPercentages
      (aggregate (processGroups [⟨some ["Amazon EC2"], some 5⟩, ⟨some ["AWS Lambda"], some (-5)⟩]).1
        (processGroups [⟨some ["Amazon EC2"], some 5⟩, ⟨some ["AWS Lambda"], some (-5)⟩]).2
        (processGroups []).1 (processGroups []).2 "2024-01-01" "2024-01-02") ∧
    ¬ (∀ x ∈ summaryPercentages
      (aggregate (processGroups [⟨some ["Amazon EC2"], some 5⟩, ⟨some ["AWS Lambda"], some (-5)⟩]).1
        (processGroups [⟨some ["Amazon EC2"], some 5⟩, ⟨some ["AWS Lambda"], some (-5)⟩]).2
        (processGroups []).1 (processGroups []).2 "2024-01-01" "2024-01-02"),
      x = JsNum.nan) := by
  have hpg1 : (processGroups [⟨some ["Amazon EC2"], some 5⟩, ⟨some ["AWS Lambda"], some (-5)⟩]).1
      = [("Amazon EC2", 5), ("AWS Lambda", -5)] := by
    simp [processGroups, processGroupsAux, mapSet, groupKey, groupVal]
  have hpg2 : (processGroups [⟨some ["Amazon EC2"], some 5⟩, ⟨some ["AWS Lambda"], some (-5)⟩]).2
      = 0 := by
    simp [processGroups, processGroupsAux, groupVal]
  have hpg0f : (processGroups ([] : List Group)).1 = [] := rfl
  have hpg0s : (processGroups ([] : List Group)).2 = 0 := rfl
  have hbc : buildCosts [("Amazon EC2", (5 : ℚ)), ("AWS Lambda", -5)] []
      = [⟨"Amazon EC2", 5, "USD", 0, 100⟩, ⟨"AWS Lambda", -5, "USD", 0, 100⟩] := by
    simp [buildCosts, unionKeys, addKey, lookupAmt, mapGet, changePct]
  have hle : ((-5 : ℚ) ≤ 5) := by norm_num
  have hsort : sortByDesc (fun c => c.amount)
      [(⟨"Amazon EC2", 5, "USD", 0, 100⟩ : CostByService), ⟨"AWS Lambda", -5, "USD", 0, 100⟩]
      = [⟨"Amazon EC2", 5, "USD", 0, 100⟩, ⟨"AWS Lambda", -5, "USD", 0, 100⟩] := by
    simp [sortByDesc, insertByDesc, hle]
  have hcl1 : classify "Amazon EC2" = Category.ec2 := by decide
  have hcl2 : classify "AWS Lambda" = Category.other := by decide
  have hacc : accumCategories
      [(⟨"Amazon EC2", 5, "USD", 0, 100⟩ : CostByService), ⟨"AWS Lambda", -5, "USD", 0, 100⟩]
      = ⟨⟨5, 0, 0⟩, ⟨0, 0, 0⟩, ⟨0, 0, 0⟩, ⟨0, 0, 0⟩, ⟨-5, 0, 0⟩, ⟨0, 0, 0⟩⟩ := by
    simp [accumCategories, initCategories, addToCat, hcl1, hcl2]
  have hfin : finishCategories ⟨⟨5, 0, 0⟩, ⟨0, 0, 0⟩, ⟨0, 0, 0⟩, ⟨0, 0, 0⟩, ⟨-5, 0, 0⟩, ⟨0, 0, 0⟩⟩
      = ⟨⟨5, 0, 100⟩, ⟨0, 0, 0⟩, ⟨0, 0, 0⟩, ⟨0, 0, 0⟩, ⟨-5, 0, 100⟩, ⟨0, 0, 0⟩⟩ := by
    simp [finishCategories, finishCat, changePct]
  have hAgg : aggregate
      (processGroups [⟨some ["Amazon EC2"], some 5⟩, ⟨some ["AWS Lambda"], some (-5)⟩]).1
      (processGroups [⟨some ["Amazon EC2"], some 5⟩, ⟨some ["AWS Lambda"], some (-5)⟩]).2
      (processGroups []).1 (processGroups []).2 "2024-01-01" "2024-01-02"
      = ⟨[⟨"Amazon EC2", 5, "USD", 0, 100⟩, ⟨"AWS Lambda", -5, "USD", 0, 100⟩], 0, 0, 0,
         "2024-01-01", "2024-01-02",
         ⟨⟨5, 0, 100⟩, ⟨0, 0, 0⟩, ⟨0, 0, 0⟩, ⟨0, 0, 0⟩, ⟨-5, 0, 100⟩, ⟨0, 0, 0⟩⟩⟩ := by
    simp [aggregate, hpg1, hpg2, hpg0f, hpg0s, hbc, hsort, hacc, hfin, changePct]
  have h05 : ((0 : ℚ) < 5) := by norm_num
  have hneg : ¬((0 : ℚ) < -5) := by norm_num
  have hsp : summaryPercentages
      (aggregate (processGroups [⟨some ["Amazon EC2"], some 5⟩, ⟨some ["AWS Lambda"], some (-5)⟩]).1
        (processGroups [⟨some ["Amazon EC2"], some 5⟩, ⟨some ["AWS Lambda"], some (-5)⟩]).2
        (processGroups []).1 (processGroups []).2 "2024-01-01" "2024-01-02")
      = [JsNum.posInf, JsNum.nan, JsNum.nan, JsNum.nan, JsNum.negInf, JsNum.nan] := by
    rw [hAgg]
    simp [summaryPercentages, categoryEntries, percentOfTotal, jsDiv, jsMul100, h05, hneg]
  refine ⟨?_, ?_, ?_⟩
  · rw [hAgg]
  · rw [hsp]; simp
  · rw [hsp]
    intro hall
    exact absurd (hall JsNum.posInf (by simp)) (by simp)

/-- C10 amended: for a run fetching distinct-keyed mappings with
non-negative amounts, a zero grand total makes every
percentage-of-total field `NaN` (an unguarded `0 / 0`) in both the JSON
summary and the issue body. -/
theorem percent_nan_amended (curGroups prevGroups : List Group) (sd ed : String)
    (hcur : (curGroups.map groupKey).Nodup)
    (hnn : ∀ g ∈ curGroups, 0 ≤ groupVal g) :
    let r := aggregate (processGroups curGroups).1 (processGroups curGroups).2
      (processGroups prevGroups).1 (processGroups prevGroups).2 sd ed
    r.total = 0 →
      (∀ x ∈ summaryPercentages r, x = JsNum.nan) ∧
      (∀ x ∈ issuePercentages r, x = JsNum.nan) := by
  intro r htot
  have hvals : ∀ p ∈ (processGroups curGroups).1, 0 ≤ p.2 := by
    intro p hp
    rw [processGroups_fst_of_nodup curGroups hcur, List.mem_map] at hp
    obtain ⟨g, hg, rfl⟩ := hp
    exact hnn g hg
  have hcosts : ∀ c ∈ sortByDesc (fun c => c.amount)
      (buildCosts (processGroups curGroups).1 (processGroups prevGroups).1), 0 ≤ c.amount := by
    intro c hc
    exact buildCosts_amount_nonneg _ _ hvals c ((sortByDesc_perm _ _).mem_iff.mp hc)
  have hsum : catSumCurrent (accumCategories (sortByDesc (fun c => c.amount)
      (buildCosts (processGroups curGroups).1 (processGroups prevGroups).1))) = 0 := by
    rw [catSumCurrent_accumCategories, sorted_amounts_sum curGroups prevGroups hcur]
    exact htot
  have hpos : ∀ cat, 0 ≤ (getCat (accumCategories (sortByDesc (fun c => c.amount)
      (buildCosts (processGroups curGroups).1 (processGroups prevGroups).1))) cat).current :=
    fun cat => accumCategories_current_nonneg _ hcosts cat
  set A := accumCategories (sortByDesc (fun c => c.amount)
      (buildCosts (processGroups curGroups).1 (processGroups prevGroups).1)) with hA
  have hp1 : 0 ≤ A.ec2.current := hpos Category.ec2
  have hp2 : 0 ≤ A.security.current := hpos Category.security
  have hp3 : 0 ≤ A.management.current := hpos Category.management
  have hp4 : 0 ≤ A.storage.current := hpos Category.storage
  have hp5 : 0 ≤ A.other.current := hpos Category.other
  have hp6 : 0 ≤ A.tax.current := hpos Category.tax
  rw [catSumCurrent] at hsum
  have hz1 : A.ec2.current = 0 := by linarith
  have hz2 : A.security.current = 0 := by linarith
  have hz3 : A.management.current = 0 := by linarith
  have hz4 : A.storage.current = 0 := by linarith
  have hz5 : A.other.current = 0 := by linarith
  have hz6 : A.tax.current = 0 := by linarith
  have hrc : r.categories = finishCategories A := rfl
  have ht' : r.total = 0 := htot
  constructor
  · intro x hx
    rw [summaryPercentages, hrc, categoryEntries] at hx
    simp only [List.map_cons, List.map_nil, List.mem_cons, List.not_mem_nil, or_false] at hx
    rcases hx with rfl | rfl | rfl | rfl | rfl | rfl <;>
      simp [finishCategories, finishCat, hz1, hz2, hz3, hz4, hz5, hz6, ht',
        percentOfTotal, jsDiv, jsMul100]
  · intro x hx
    rw [issuePercentages, List.mem_map] at hx
    obtain ⟨e, he, rfl⟩ := hx
    have hmem : e ∈ categoryEntries r.categories := (sortByDesc_perm _ _).mem_iff.mp he
    rw [hrc, categoryEntries] at hmem
    simp only [List.mem_cons, List.not_mem_nil, or_false] at hmem
    rcases hmem with rfl | rfl | rfl | rfl | rfl | rfl <;>
      simp [finishCategories, finishCat, hz1, hz2, hz3, hz4, hz5, hz6, ht',
        percentOfTotal, jsDiv, jsMul100]

theorem percent_nan_amended_witness :
    (([] : List Group).map groupKey).Nodup ∧
    (aggregate (processGroups ([] : List Group)).1 (processGroups ([] : List Group)).2
        (processGroups ([] : List Group)).1 (processGroups ([] : List Group)).2 "s" "e").total
      = 0 ∧
    ((∀ x ∈ summaryPercentages
        (aggregate (processGroups ([] : List Group)).1 (processGroups ([] : List Group)).2
          (processGroups ([] : List Group)).1 (processGroups ([] : List Group)).2 "s" "e"),
        x = JsNum.nan) ∧
      (∀ x ∈ issuePercentages
        (aggregate (processGroups ([] : List Group)).1 (processGroups ([] : List Group)).2
          (processGroups ([] : List Group)).1 (processGroups ([] : List Group)).2 "s" "e"),
        x = JsNum.nan)) :=
  ⟨by decide, rfl, percent_nan_amended [] [] "s" "e" (by decide) (by decide) rfl⟩

end AwsCostNotifier
